import Mathlib

/-!
# Verification of the git-rovo repository change-state model

A shallow embedding of the `git` package of git-rovo (status parsing, the
binary-content heuristic, diff parsing, untracked-file diff synthesis, the
commit-history parser and the mutation-operation preconditions), together
with theorems settling the specification's claims about it.

External effects are made explicit: the output of the external `git`
command is a parameter (a list of scanned lines), the file system is a
value describing what `stat`/`ReadFile` would return, and a mutation
operation returns either a local precondition error or the argument
vector of the single external command it would invoke.  Byte strings are
modelled as lists of naturals (byte values); where the Go code converts
file bytes to a string, characters model bytes (exact for ASCII input).
-/

namespace GitRovo

/-- `FileStatus` from the source: one entry per parsed status line. -/
structure FileStatus where
  Path : String
  Status : String
  Staged : Bool
  Modified : Bool
deriving Repr, DecidableEq

/-- One line of `Repository.GetStatus`'s loop: lines shorter than 3
characters are skipped; otherwise the first two characters are the code,
the path starts at offset 3, `Staged` holds when the index character is
neither space nor `?`, and `Modified` holds when the worktree character
is not space and the code is not `"??"`. -/
def parseStatusLine (line : String) : Option FileStatus :=
  match line.data with
  | c0 :: c1 :: _ :: rest =>
      some { Path := String.mk rest
             Status := String.mk [c0, c1]
             Staged := c0 != ' ' && c0 != '?'
             Modified := c1 != ' ' && String.mk [c0, c1] != "??" }
  | _ => none

/-- `Repository.GetStatus`, with the porcelain output already scanned
into lines. -/
def GetStatus (lines : List String) : List FileStatus :=
  lines.filterMap parseStatusLine

/-- The count of control bytes outside {tab, LF, CR}, as accumulated by
the second loop of `isBinaryContent`. -/
def nonPrintableCount (content : List Nat) : Nat :=
  (content.filter (fun b => decide (b < 32) && b != 9 && b != 10 && b != 13)).length

/-- `isBinaryContent` from the source, on bytes as naturals.  Any NUL
byte means binary; otherwise the Go code compares the float64 ratio of
control bytes outside {tab, LF, CR} against 0.3, modelled exactly by
`10 * nonPrintable > 3 * length`. -/
def isBinaryContent (content : List Nat) : Bool :=
  if content.contains 0 then
    true
  else
    decide (0 < content.length) &&
      decide (3 * content.length < 10 * nonPrintableCount content)

/-- The bytes of a string, characters modelling bytes. -/
def strBytes (s : String) : List Nat :=
  s.data.map Char.toNat

instance {e a : Type} [DecidableEq e] [DecidableEq a] : DecidableEq (Except e a) := fun x y =>
  match x, y with
  | .ok v, .ok w =>
      if h : v = w then isTrue (by rw [h]) else isFalse (fun q => h (Except.ok.inj q))
  | .error v, .error w =>
      if h : v = w then isTrue (by rw [h]) else isFalse (fun q => h (Except.error.inj q))
  | .ok _, .error _ => isFalse (fun q => Except.noConfusion q)
  | .error _, .ok _ => isFalse (fun q => Except.noConfusion q)

/-- Go's `strings.Split(s, "\n")` on characters: the runs between line
feeds, always at least one (possibly empty) part. -/
def splitLinesLF : List Char → List (List Char)
  | [] => [[]]
  | c :: rest =>
      match splitLinesLF rest with
      | [] => [[]]
      | g :: gs => if c = Char.ofNat 10 then [] :: g :: gs else (c :: g) :: gs

/-- Go's `strings.Split(s, "\n")`. -/
def splitOnLF (s : String) : List String :=
  (splitLinesLF s.data).map String.mk

/-- `DiffInfo` from the source; the field defaults are Go's zero values,
as produced by `&DiffInfo{}`. -/
structure DiffInfo where
  FilePath : String := ""
  OldPath : String := ""
  NewPath : String := ""
  Status : String := ""
  Additions : Nat := 0
  Deletions : Nat := 0
  Content : String := ""
  IsBinary : Bool := false
deriving Repr, DecidableEq

/-- Go's `strings.Join(lines, "\n")`. -/
def joinLines : List String → String
  | [] => ""
  | [l] => l
  | l :: ls => l ++ "\n" ++ joinLines ls

/-- Go's `strings.HasPrefix`, on the characters of the string
(characters model bytes). -/
def hasPrefix (s p : String) : Bool :=
  p.data.isPrefixOf s.data

/-- Go's `strings.TrimPrefix`. -/
def trimPrefix (s p : String) : String :=
  if hasPrefix s p then s.drop p.length else s

/-- Go's `strings.Fields`: the maximal runs of non-whitespace characters. -/
def fields (s : String) : List String :=
  (s.split Char.isWhitespace).filter (· ≠ "")

/-- The state of `parseDiff`'s scan loop: the finished records, the
record in progress, and the lines collected since that record started. -/
structure DiffParseState where
  diffs : List DiffInfo
  curr : Option DiffInfo
  contentLines : List String
deriving Repr

/-- The record started by a `diff --git` header line: old/new paths read
from the 3rd and 4th whitespace-separated fields when there are at least
four, with the conventional `a/`/`b/` prefixes stripped, `FilePath`
defaulting to the new path. -/
def headerInit (line : String) : DiffInfo :=
  let parts := fields line
  if 4 ≤ parts.length then
    let oldP := trimPrefix (parts.getD 2 "") "a/"
    let newP := trimPrefix (parts.getD 3 "") "b/"
    { OldPath := oldP, NewPath := newP, FilePath := newP }
  else
    {}

/-- The effect of one non-header line on the record in progress: the
Go else-if chain of `Repository.parseDiff` (each branch guarded there by
`currentDiff != nil`, expressed here through `Option.map` at the call
site). -/
def lineUpdate (line : String) (d : DiffInfo) : DiffInfo :=
  if hasPrefix line "new file mode" then
    { d with Status := "A" }
  else if hasPrefix line "deleted file mode" then
    { d with Status := "D", FilePath := d.OldPath }
  else if hasPrefix line "rename from" then
    { d with Status := "R" }
  else if hasPrefix line "Binary files" then
    { d with IsBinary := true }
  else if hasPrefix line "@@" then
    if d.Status = "" then { d with Status := "M" } else d
  else if hasPrefix line "+" && !hasPrefix line "+++" then
    { d with Additions := d.Additions + 1 }
  else if hasPrefix line "-" && !hasPrefix line "---" then
    { d with Deletions := d.Deletions + 1 }
  else
    d

/-- One iteration of `Repository.parseDiff`'s loop: a `diff --git` line
finalizes any record in progress and starts a new one; every other line
updates the record in progress through `lineUpdate`; the scanned line is
appended to `contentLines` at the end of the iteration. -/
def parseDiffLine (st : DiffParseState) (line : String) : DiffParseState :=
  let st :=
    if hasPrefix line "diff --git" then
      let st :=
        match st.curr with
        | some d =>
            { st with
                diffs := st.diffs ++ [{ d with Content := joinLines st.contentLines }]
                contentLines := [] }
        | none => st
      { st with curr := some (headerInit line) }
    else
      { st with curr := st.curr.map (lineUpdate line) }
  { st with contentLines := st.contentLines ++ [line] }

/-- The "save last diff" block after `parseDiff`'s loop: finalize and
append the record in progress if one exists. -/
def finalizeDiff (st : DiffParseState) : List DiffInfo :=
  match st.curr with
  | some d => st.diffs ++ [{ d with Content := joinLines st.contentLines }]
  | none => st.diffs

/-- `Repository.parseDiff`, with the diff output already scanned into
lines: fold the loop body over the lines, then finalize. -/
def parseDiff (lines : List String) : List DiffInfo :=
  finalizeDiff (lines.foldl parseDiffLine { diffs := [], curr := none, contentLines := [] })

/-- The invariant of `parseDiff`'s scan relating the state to the lines
consumed so far: before any header line nothing has been emitted and
`contentLines` holds every consumed line; afterwards the consumed lines
split into nonempty groups whose joins are the emitted contents,
followed by the current `contentLines`. -/
def DiffStateInv (consumed : List String) (st : DiffParseState) : Prop :=
  (st.curr = none → st.diffs = [] ∧ st.contentLines = consumed) ∧
  (st.curr ≠ none →
    st.contentLines ≠ [] ∧
    ∃ groups : List (List String),
      st.diffs.map DiffInfo.Content = groups.map joinLines ∧
      groups.flatten ++ st.contentLines = consumed ∧
      ∀ g ∈ groups, g ≠ [])

/-- What the file system returns for a path: `os.Stat` failure, a
directory, or a regular file with its `stat` size and the outcome of
`os.ReadFile` (`none` models a read error). -/
inductive FSEntry where
  | statError
  | dir
  | file (size : Nat) (readResult : Option String)
deriving Repr, DecidableEq

/-- The lines `generateUntrackedFileDiff` writes for a text file, one
per `WriteString` call in the source: section header, "new file mode"
line, index placeholder, `---`/`+++` markers, a hunk header declaring
zero old lines and one new line per source line, then one `+`-prefixed
line per source line. -/
def untrackedDiffLines (filePath : String) (lines : List String) : List String :=
  ["diff --git a/" ++ filePath ++ " b/" ++ filePath,
   "new file mode 100644",
   "index 0000000..0000000",
   "--- /dev/null",
   "+++ b/" ++ filePath,
   "@@ -0,0 +1," ++ toString lines.length ++ " @@"] ++
    lines.map (fun l => "+" ++ l)

/-- Concatenation of lines, a line feed after each: the
`strings.Builder` accumulation (every `WriteString` in the source ends
in a line feed). -/
def catLines : List String → String
  | [] => ""
  | l :: ls => l ++ "\n" ++ catLines ls

/-- The unified-diff-equivalent block for a text file: the written
lines, concatenated. -/
def untrackedTextDiffContent (filePath content : String) : String :=
  catLines (untrackedDiffLines filePath (splitOnLF content))

/-- `Repository.generateUntrackedFileDiff`: a `stat` or read failure is
an error (the caller skips the file), a directory yields no record, a
file over 1 MiB yields a binary placeholder without the content being
read, binary content yields a binary placeholder, and text content
yields the synthesized unified-diff block. -/
def generateUntrackedFileDiff (filePath : String) (entry : FSEntry) :
    Except Unit (Option DiffInfo) :=
  match entry with
  | .statError => .error ()
  | .dir => .ok none
  | .file size readResult =>
      if 1024 * 1024 < size then
        .ok (some { FilePath := filePath, OldPath := "", Status := "A", IsBinary := true,
                    Content := "Binary file " ++ filePath ++ " (size: " ++
                      toString size ++ " bytes)" })
      else
        match readResult with
        | none => .error ()
        | some content =>
            if isBinaryContent (strBytes content) then
              .ok (some { FilePath := filePath, OldPath := "", Status := "A",
                          IsBinary := true, Content := "Binary file " ++ filePath })
            else
              .ok (some { FilePath := filePath, OldPath := "", Status := "A",
                          IsBinary := false,
                          Content := untrackedTextDiffContent filePath content })

/-- `Repository.GetUntrackedFileDiff`: select untracked entries from the
status output, intersect with the requested paths when any were given,
and synthesize a record per selected path, skipping failures.  (The Go
code collects "all untracked" from a map; its unordered iteration is
modelled by status order.) -/
def GetUntrackedFileDiff (statusLines : List String) (fs : String → FSEntry)
    (filePaths : List String) : List DiffInfo :=
  let status := GetStatus statusLines
  let untracked := (status.filter (fun f => f.Status == "??")).map FileStatus.Path
  let targetFiles :=
    if 0 < filePaths.length then
      filePaths.filter (fun p => untracked.contains p)
    else
      untracked
  targetFiles.foldl (fun acc p =>
    match generateUntrackedFileDiff p (fs p) with
    | .ok (some d) => acc ++ [d]
    | _ => acc) []

/-- `Repository.StageFiles`: an empty path list is a local precondition
error; otherwise the one external command's argument vector is returned
as the `.ok` value (an `.error` result means no external command is
issued). -/
def StageFiles (filePaths : List String) : Except String (List String) :=
  if filePaths.length = 0 then .error "no files specified to stage"
  else .ok ("add" :: filePaths)

/-- `Repository.UnstageFiles`, encoded like `StageFiles`. -/
def UnstageFiles (filePaths : List String) : Except String (List String) :=
  if filePaths.length = 0 then .error "no files specified to unstage"
  else .ok ("reset" :: "HEAD" :: filePaths)

/-- `Repository.Commit`: an empty message is a local precondition
error; otherwise the commit command's argument vector is returned. -/
def Commit (message : String) : Except String (List String) :=
  if message = "" then .error "commit message cannot be empty"
  else .ok ["commit", "-m", message]

/-- Modelled from the spec: `Repository.AmendCommit` is referenced by
the repository's tests but its body is missing from the available
sources.  Per the spec it validates the non-empty message precondition
locally, additionally requires that at least one commit exists (failing
with a distinct "no commits found" error when history is empty), and
only then issues the external amend command; `hasCommits` abstracts the
history check. -/
def AmendCommit (message : String) (hasCommits : Bool) : Except String (List String) :=
  if message = "" then .error "commit message cannot be empty"
  else if !hasCommits then .error "no commits found to amend"
  else .ok ["commit", "--amend", "-m", message]

/-- The split of a character list at its first `'|'`, if any: the part
before and the part after. -/
def splitFirstBar : List Char → Option (List Char × List Char)
  | [] => none
  | c :: cs =>
      if c = '|' then some ([], cs)
      else (splitFirstBar cs).map (fun p => (c :: p.1, p.2))

/-- Go's `strings.SplitN(s, "|", n)` on characters: at most `n` parts,
the last holding the unsplit remainder. -/
def splitNBar : Nat → List Char → List (List Char)
  | 0, _ => []
  | n + 1, cs =>
      if n = 0 then [cs]
      else
        match splitFirstBar cs with
        | none => [cs]
        | some (pre, post) => pre :: splitNBar n post

/-- Go's slice expression `s[:n]`: `none` models the runtime panic when
`n` exceeds the length. -/
def goSliceTo (s : String) (n : Nat) : Option String :=
  if n ≤ s.length then some (String.mk (s.data.take n)) else none

/-- `CommitInfo` from the source.  `time.Parse` of the date field is
abstracted: the model keeps the raw third field, which no claim
depends on. -/
structure CommitInfo where
  Hash : String
  Author : String
  DateRaw : String
  Subject : String
  Body : String
  ShortHash : String
deriving Repr, DecidableEq

/-- One line of `Repository.GetCommitHistory`'s loop: empty lines and
lines with fewer than 4 `|`-separated fields are skipped; otherwise the
commit record is built, with `ShortHash := parts[0][:8]` sliced without
a length check — an `.error` result models the out-of-bounds panic. -/
def parseHistoryLine (line : String) : Except Unit (Option CommitInfo) :=
  if line = "" then .ok none
  else
    let parts := (splitNBar 5 line.data).map String.mk
    if parts.length < 4 then .ok none
    else
      match goSliceTo (parts.getD 0 "") 8 with
      | none => .error ()
      | some short =>
          .ok (some { Hash := parts.getD 0 "", Author := parts.getD 1 "",
                      DateRaw := parts.getD 2 "", Subject := parts.getD 3 "",
                      Body := if parts.length = 5 then parts.getD 4 "" else "",
                      ShortHash := short })

/-- `Repository.GetCommitHistory` over the scanned log lines; the first
`.error` (panic) aborts the whole computation, as a Go panic would. -/
def GetCommitHistory (lines : List String) : Except Unit (List CommitInfo) :=
  lines.foldlM (fun acc line => (parseHistoryLine line).map (fun o => acc ++ o.toList)) []

/-- `joinLines` on a cons with nonempty tail inserts one separator. -/
theorem joinLines_cons (x : String) (xs : List String) (h : xs ≠ []) :
    joinLines (x :: xs) = x ++ "\n" ++ joinLines xs := by
  cases xs with
  | nil => exact absurd rfl h
  | cons y ys => rfl

/-- `joinLines` distributes over appending two nonempty line lists. -/
theorem joinLines_append (a b : List String) (ha : a ≠ []) (hb : b ≠ []) :
    joinLines (a ++ b) = joinLines a ++ "\n" ++ joinLines b := by
  induction a with
  | nil => exact absurd rfl ha
  | cons x xs ih =>
      cases hxs : xs with
      | nil =>
          simp only [List.cons_append, List.nil_append]
          rw [joinLines_cons x b hb]
          rfl
      | cons y ys =>
          subst hxs
          rw [List.cons_append, joinLines_cons x ((y :: ys) ++ b) (by simp),
              joinLines_cons x (y :: ys) (by simp), ih (by simp)]
          simp [String.append_assoc]

/-- Joining already-joined nonempty groups equals joining the flat line
list. -/
theorem joinLines_groups (groups : List (List String)) (cls : List String)
    (hg : ∀ g ∈ groups, g ≠ []) (hc : cls ≠ []) :
    joinLines (groups.map joinLines ++ [joinLines cls]) =
      joinLines (groups.flatten ++ cls) := by
  induction groups with
  | nil => simp [joinLines]
  | cons g gs ih =>
      have hgne : g ≠ [] := hg g (by simp)
      have hrest : ∀ x ∈ gs, x ≠ [] := fun x hx => hg x (by simp [hx])
      have h1 : gs.flatten ++ cls ≠ [] := fun h => hc (List.append_eq_nil.mp h).2
      rw [List.map_cons, List.cons_append,
          joinLines_cons (joinLines g) (gs.map joinLines ++ [joinLines cls]) (by simp),
          ih hrest, List.flatten_cons, List.append_assoc,
          joinLines_append g (gs.flatten ++ cls) hgne h1]

/-- A non-header line keeps the finished records, updates the record in
progress, and appends itself to the collected lines. -/
theorem parseDiffLine_not_header (st : DiffParseState) (line : String)
    (h : hasPrefix line "diff --git" = false) :
    parseDiffLine st line =
      { diffs := st.diffs, curr := st.curr.map (lineUpdate line),
        contentLines := st.contentLines ++ [line] } := by
  simp [parseDiffLine, h]

/-- A header line with no record in progress starts one, keeping the
collected lines. -/
theorem parseDiffLine_header_none (st : DiffParseState) (line : String)
    (h : hasPrefix line "diff --git" = true) (hc : st.curr = none) :
    parseDiffLine st line =
      { diffs := st.diffs, curr := some (headerInit line),
        contentLines := st.contentLines ++ [line] } := by
  simp [parseDiffLine, h, hc]

/-- A header line with a record in progress finalizes it and starts a
fresh group with just the header line. -/
theorem parseDiffLine_header_some (st : DiffParseState) (line : String) (d : DiffInfo)
    (h : hasPrefix line "diff --git" = true) (hc : st.curr = some d) :
    parseDiffLine st line =
      { diffs := st.diffs ++ [{ d with Content := joinLines st.contentLines }],
        curr := some (headerInit line), contentLines := [line] } := by
  simp [parseDiffLine, h, hc]

/-- One scan step preserves the `parseDiff` invariant. -/
theorem diffStateInv_step (consumed : List String) (st : DiffParseState) (line : String)
    (h : DiffStateInv consumed st) :
    DiffStateInv (consumed ++ [line]) (parseDiffLine st line) := by
  obtain ⟨hnone, hsome⟩ := h
  by_cases hp : hasPrefix line "diff --git"
  · cases hc : st.curr with
    | none =>
        obtain ⟨hd, hcl⟩ := hnone hc
        rw [parseDiffLine_header_none st line hp hc]
        refine ⟨fun h2 => by simp at h2, fun _ => ?_⟩
        refine ⟨by simp, [], by simp [hd], by simp [hcl], by simp⟩
    | some d =>
        obtain ⟨hcl, groups, hmap, hflat, hne⟩ := hsome (by simp [hc])
        rw [parseDiffLine_header_some st line d hp hc]
        refine ⟨fun h2 => by simp at h2, fun _ => ?_⟩
        refine ⟨by simp, groups ++ [st.contentLines], ?_, ?_, ?_⟩
        · simp [hmap]
        · simp only [List.flatten_append, List.flatten_cons, List.flatten_nil,
            List.append_nil, List.append_assoc]
          rw [← List.append_assoc, hflat]
        · intro g hg
          rcases List.mem_append.mp hg with h3 | h3
          · exact hne g h3
          · simp at h3; subst h3; exact hcl
  · rw [parseDiffLine_not_header st line (by simpa using hp)]
    cases hc : st.curr with
    | none =>
        obtain ⟨hd, hcl⟩ := hnone hc
        exact ⟨fun _ => ⟨hd, by simp [hc, hcl]⟩, fun hne2 => absurd (by simp [hc]) hne2⟩
    | some d =>
        obtain ⟨hcl, groups, hmap, hflat, hne⟩ := hsome (by simp [hc])
        refine ⟨fun h2 => by simp [hc] at h2, fun _ => ?_⟩
        refine ⟨by simp, groups, by simpa using hmap, ?_, hne⟩
        rw [← List.append_assoc, hflat]

/-- The scan invariant holds after folding any line list. -/
theorem diffStateInv_foldl (lines : List String) :
    ∀ (st : DiffParseState) (consumed : List String),
      DiffStateInv consumed st →
      DiffStateInv (consumed ++ lines) (lines.foldl parseDiffLine st) := by
  induction lines with
  | nil => intro st consumed h; simpa using h
  | cons l ls ih =>
      intro st consumed h
      have h1 := diffStateInv_step consumed st l h
      have h2 := ih (parseDiffLine st l) (consumed ++ [l]) h1
      simpa [List.append_assoc] using h2

/-- A scan step never discards the record in progress. -/
theorem parseDiffLine_isSome (st : DiffParseState) (line : String)
    (h : st.curr.isSome = true) : (parseDiffLine st line).curr.isSome = true := by
  by_cases hp : hasPrefix line "diff --git"
  · cases hc : st.curr with
    | none => rw [hc] at h; simp at h
    | some d => rw [parseDiffLine_header_some st line d hp hc]; rfl
  · rw [parseDiffLine_not_header st line (by simpa using hp)]
    simpa using h

/-- Folding preserves the existence of a record in progress. -/
theorem foldl_parseDiffLine_isSome (lines : List String) :
    ∀ st : DiffParseState, st.curr.isSome = true →
      ((lines.foldl parseDiffLine st).curr).isSome = true := by
  induction lines with
  | nil => intro st h; simpa using h
  | cons l ls ih => intro st h; exact ih _ (parseDiffLine_isSome st l h)

/-- After scanning a line list containing a header line, a record is in
progress. -/
theorem foldl_parseDiffLine_isSome_of_header (lines : List String) :
    ∀ st : DiffParseState, (∃ l ∈ lines, hasPrefix l "diff --git" = true) →
      ((lines.foldl parseDiffLine st).curr).isSome = true := by
  induction lines with
  | nil => intro st h; simp at h
  | cons l ls ih =>
      intro st h
      by_cases hl : hasPrefix l "diff --git"
      · have h1 : (parseDiffLine st l).curr.isSome = true := by
          cases hc : st.curr with
          | none => rw [parseDiffLine_header_none st l hl hc]; rfl
          | some d => rw [parseDiffLine_header_some st l d hl hc]; rfl
        exact List.foldl_cons .. ▸ foldl_parseDiffLine_isSome ls _ h1
      · rcases h with ⟨m, hm, hmp⟩
        rcases List.mem_cons.mp hm with rfl | hm2
        · exact absurd hmp (by simpa using hl)
        · exact List.foldl_cons .. ▸ ih _ ⟨m, hm2, hmp⟩

/-- Two prefixes of the same string are comparable, so a string with
prefix `p` cannot also have prefix `q` when neither of `p`, `q` is a
prefix of the other. -/
theorem hasPrefix_excl (s p q : String)
    (hp : hasPrefix s p = true)
    (h1 : p.data.isPrefixOf q.data = false)
    (h2 : q.data.isPrefixOf p.data = false) :
    hasPrefix s q = false := by
  cases hq : hasPrefix s q with
  | false => rfl
  | true =>
      have hps : p.data <+: s.data :=
        List.isPrefixOf_iff_prefix.mp (show p.data.isPrefixOf s.data = true from hp)
      have hqs : q.data <+: s.data :=
        List.isPrefixOf_iff_prefix.mp (show q.data.isPrefixOf s.data = true from hq)
      rcases List.prefix_or_prefix_of_prefix hps hqs with h | h
      · have := List.isPrefixOf_iff_prefix.mpr h
        rw [h1] at this
        exact Bool.noConfusion this
      · have := List.isPrefixOf_iff_prefix.mpr h
        rw [h2] at this
        exact Bool.noConfusion this

/-- On a hunk-header line, `lineUpdate` sets `Status` to `"M"` only when
none is set yet. -/
theorem lineUpdate_hunk (line : String) (d : DiffInfo)
    (h : hasPrefix line "@@" = true) :
    lineUpdate line d = if d.Status = "" then { d with Status := "M" } else d := by
  have h1 : hasPrefix line "new file mode" = false :=
    hasPrefix_excl line "@@" "new file mode" h (by decide) (by decide)
  have h2 : hasPrefix line "deleted file mode" = false :=
    hasPrefix_excl line "@@" "deleted file mode" h (by decide) (by decide)
  have h3 : hasPrefix line "rename from" = false :=
    hasPrefix_excl line "@@" "rename from" h (by decide) (by decide)
  have h4 : hasPrefix line "Binary files" = false :=
    hasPrefix_excl line "@@" "Binary files" h (by decide) (by decide)
  simp [lineUpdate, h1, h2, h3, h4, h]

/-- No line free of deleted-file and rename markers moves `Status` off
`"A"`. -/
theorem lineUpdate_keeps_A (line : String) (d : DiffInfo) (hA : d.Status = "A")
    (hdel : hasPrefix line "deleted file mode" = false)
    (hren : hasPrefix line "rename from" = false) :
    (lineUpdate line d).Status = "A" := by
  unfold lineUpdate
  split_ifs <;> simp_all

/-- No line free of new-file and rename markers moves `Status` off `"D"`
or breaks `FilePath = OldPath`. -/
theorem lineUpdate_keeps_D (line : String) (d : DiffInfo)
    (hD : d.Status = "D") (hFP : d.FilePath = d.OldPath)
    (hnew : hasPrefix line "new file mode" = false)
    (hren : hasPrefix line "rename from" = false) :
    (lineUpdate line d).Status = "D" ∧
    (lineUpdate line d).FilePath = (lineUpdate line d).OldPath := by
  unfold lineUpdate
  split_ifs <;> simp_all

/-- Folding non-header lines keeps a record in progress and the finished
records. -/
theorem foldl_no_header (ls : List String) :
    ∀ (st : DiffParseState) (d : DiffInfo), st.curr = some d →
      (∀ l ∈ ls, hasPrefix l "diff --git" = false) →
      ∃ d', (ls.foldl parseDiffLine st).curr = some d' ∧
        (ls.foldl parseDiffLine st).diffs = st.diffs := by
  induction ls with
  | nil => intro st d hc _; exact ⟨d, hc, rfl⟩
  | cons l ls ih =>
      intro st d hc hall
      rw [List.foldl_cons, parseDiffLine_not_header st l (hall l (by simp))]
      exact ih _ (lineUpdate l d) (by rw [hc]; rfl) (fun m hm => hall m (by simp [hm]))

/-- Folding lines free of section, deleted-file and rename markers over
a record with `Status = "A"` keeps `Status = "A"` and the finished
records. -/
theorem foldl_keeps_A (ls : List String) :
    ∀ (st : DiffParseState) (d : DiffInfo), st.curr = some d → d.Status = "A" →
      (∀ l ∈ ls, hasPrefix l "diff --git" = false ∧
        hasPrefix l "deleted file mode" = false ∧ hasPrefix l "rename from" = false) →
      ∃ d', (ls.foldl parseDiffLine st).curr = some d' ∧ d'.Status = "A" ∧
        (ls.foldl parseDiffLine st).diffs = st.diffs := by
  induction ls with
  | nil => intro st d hc hA _; exact ⟨d, hc, hA, rfl⟩
  | cons l ls ih =>
      intro st d hc hA hall
      obtain ⟨hh, hdel, hren⟩ := hall l (by simp)
      rw [List.foldl_cons, parseDiffLine_not_header st l hh]
      exact ih _ (lineUpdate l d) (by rw [hc]; rfl)
        (lineUpdate_keeps_A l d hA hdel hren)
        (fun m hm => hall m (by simp [hm]))

/-- Folding lines free of section, new-file and rename markers over a
record with `Status = "D"` and `FilePath = OldPath` keeps both and the
finished records. -/
theorem foldl_keeps_D (ls : List String) :
    ∀ (st : DiffParseState) (d : DiffInfo), st.curr = some d →
      d.Status = "D" → d.FilePath = d.OldPath →
      (∀ l ∈ ls, hasPrefix l "diff --git" = false ∧
        hasPrefix l "new file mode" = false ∧ hasPrefix l "rename from" = false) →
      ∃ d', (ls.foldl parseDiffLine st).curr = some d' ∧ d'.Status = "D" ∧
        d'.FilePath = d'.OldPath ∧
        (ls.foldl parseDiffLine st).diffs = st.diffs := by
  induction ls with
  | nil => intro st d hc hD hFP _; exact ⟨d, hc, hD, hFP, rfl⟩
  | cons l ls ih =>
      intro st d hc hD hFP hall
      obtain ⟨hh, hnew, hren⟩ := hall l (by simp)
      rw [List.foldl_cons, parseDiffLine_not_header st l hh]
      obtain ⟨k1, k2⟩ := lineUpdate_keeps_D l d hD hFP hnew hren
      exact ih _ (lineUpdate l d) (by rw [hc]; rfl) k1 k2
        (fun m hm => hall m (by simp [hm]))

/-- C1: for every status-output line of length at least 3 the parser
produces one `FileStatus` whose `Staged` flag is true exactly when the
first character of the code is neither a space nor `?`, and whose
`Modified` flag is true exactly when the second character is not a space
and the code is not `"??"`; in particular a `"??"` entry has
`Staged = false` and `Modified = false`. -/
theorem getStatus_flag_derivation (c0 c1 c2 : Char) (rest : List Char) :
    ∃ fs : FileStatus,
      parseStatusLine (String.mk (c0 :: c1 :: c2 :: rest)) = some fs ∧
      GetStatus [String.mk (c0 :: c1 :: c2 :: rest)] = [fs] ∧
      (fs.Staged = true ↔ (c0 ≠ ' ' ∧ c0 ≠ '?')) ∧
      (fs.Modified = true ↔ (c1 ≠ ' ' ∧ String.mk [c0, c1] ≠ "??")) ∧
      (String.mk [c0, c1] = "??" → fs.Staged = false ∧ fs.Modified = false) := by
  refine ⟨_, rfl, rfl, ?_, ?_, ?_⟩
  · simp [parseStatusLine, Bool.and_eq_true, ne_eq]
  · simp [parseStatusLine, Bool.and_eq_true, ne_eq]
  · intro h
    have hd := congrArg String.data h
    simp at hd
    obtain ⟨h0, h1⟩ := hd
    subst h0 h1
    constructor <;> simp [parseStatusLine]

/-- C4 counterexample: ten bytes of which exactly three (30%, so "at
least 30%") are control characters outside {tab, LF, CR}; the detector
classifies them as text, because the code requires the fraction to
strictly exceed 0.30. -/
theorem isBinaryContent_thirty_percent_is_text :
    (3 : ℚ) / 10 ≤
      (nonPrintableCount [1, 1, 1, 65, 65, 65, 65, 65, 65, 65] : ℚ) /
        (List.length [1, 1, 1, 65, 65, 65, 65, 65, 65, 65] : ℚ) ∧
    isBinaryContent [1, 1, 1, 65, 65, 65, 65, 65, 65, 65] = false := by
  constructor
  · norm_num [nonPrintableCount]
  · decide

/-- C4 (amended): the detector classifies a byte sequence as binary iff
it contains a NUL byte, or it is nonempty and the fraction of control
bytes outside {tab, LF, CR} strictly exceeds 0.30; in particular `[]` is
text, `"Hello\x00world"` is binary, `"Line 1\t\nLine 2\r\n"` is text,
and 10 bytes of which more than 30% (here four) are such control
characters are binary. -/
theorem isBinaryContent_characterization :
    (∀ bs : List Nat, isBinaryContent bs = true ↔
      (0 ∈ bs ∨ (bs ≠ [] ∧
        (3 : ℚ) / 10 < (nonPrintableCount bs : ℚ) / (bs.length : ℚ)))) ∧
    isBinaryContent [] = false ∧
    isBinaryContent (strBytes "Hello\x00world") = true ∧
    isBinaryContent (strBytes "Line 1\t\nLine 2\r\n") = false ∧
    isBinaryContent [1, 1, 1, 1, 65, 65, 65, 65, 65, 65] = true := by
  refine ⟨?_, by decide, by decide, by decide, by decide⟩
  intro bs
  unfold isBinaryContent
  by_cases h0 : bs.contains 0
  · have hmem : 0 ∈ bs := by simpa using h0
    simp [h0, hmem]
  · have h0m : ¬ (0 ∈ bs) := fun hm => h0 (by simpa using hm)
    simp [h0, h0m]
    rw [List.length_pos, and_congr_right_iff]
    intro hlen
    have hl : 0 < (bs.length : ℚ) := by
      have : 0 < bs.length := List.length_pos.mpr hlen
      exact_mod_cast this
    rw [div_lt_div_iff₀ (by norm_num) hl]
    constructor
    · intro h
      have := (Nat.cast_lt (α := ℚ)).mpr h
      push_cast at this
      linarith
    · intro h
      have : (3 * bs.length : ℚ) < (10 * nonPrintableCount bs : ℚ) := by
        linarith
      exact_mod_cast this

/-- C2 counterexample: on the one-line input `"hello"`, which contains
no file-section marker, the parser returns no records and the
concatenation of the content fields does not reconstruct the input —
the line is dropped. -/
theorem parseDiff_drops_headerless_input :
    parseDiff ["hello"] = [] ∧
    joinLines ((parseDiff ["hello"]).map DiffInfo.Content) ≠ joinLines ["hello"] := by
  constructor
  · rfl
  · decide

/-- C2 (amended): for every input that is empty or contains at least one
line starting with the file-section marker `diff --git`, newline-joining
the content fields of all records returned by the diff parser
reconstructs the newline-joined input: no line is dropped and none is
duplicated (inputs without any marker line yield no records, dropping
their lines). -/
theorem parseDiff_roundtrip (lines : List String)
    (h : lines = [] ∨ ∃ l ∈ lines, hasPrefix l "diff --git" = true) :
    joinLines ((parseDiff lines).map DiffInfo.Content) = joinLines lines := by
  rcases h with rfl | h
  · rfl
  · have hinv : DiffStateInv ([] ++ lines)
        (lines.foldl parseDiffLine { diffs := [], curr := none, contentLines := [] }) := by
      refine diffStateInv_foldl lines _ [] ?_
      exact ⟨fun _ => ⟨rfl, rfl⟩, fun hne => absurd rfl hne⟩
    have hs : ((lines.foldl parseDiffLine
        { diffs := [], curr := none, contentLines := [] }).curr).isSome = true :=
      foldl_parseDiffLine_isSome_of_header lines _ h
    unfold parseDiff finalizeDiff
    set st := lines.foldl parseDiffLine { diffs := [], curr := none, contentLines := [] }
      with hst
    obtain ⟨d, hd⟩ := Option.isSome_iff_exists.mp hs
    obtain ⟨hcl, groups, hmap, hflat, hne⟩ := hinv.2 (by simp [hd])
    rw [hd]
    simp only [List.map_append, List.map_cons, List.map_nil, hmap]
    rw [joinLines_groups groups st.contentLines hne hcl]
    simp only [List.nil_append] at hflat
    rw [hflat]

/-- C5: a hunk-header line sets a section's change kind to Modified only
when none has been set yet for that section; consequently a diff section
— a header line followed by lines with no further section marker, and
(as in any well-formed single section) no deleted-file or rename marker —
that contains a "new file mode" line parses to change kind Added
regardless of how many hunk headers follow it. -/
theorem parseDiff_new_file_added (hline nf : String) (pre post : List String)
    (hh : hasPrefix hline "diff --git" = true)
    (hpre : ∀ l ∈ pre, hasPrefix l "diff --git" = false)
    (hnf : hasPrefix nf "new file mode" = true)
    (hpost : ∀ l ∈ post, hasPrefix l "diff --git" = false ∧
      hasPrefix l "deleted file mode" = false ∧ hasPrefix l "rename from" = false) :
    (∀ (line : String) (d : DiffInfo), hasPrefix line "@@" = true →
      lineUpdate line d = if d.Status = "" then { d with Status := "M" } else d) ∧
    ∃ d, parseDiff (hline :: (pre ++ [nf] ++ post)) = [d] ∧ d.Status = "A" := by
  refine ⟨fun line d h => lineUpdate_hunk line d h, ?_⟩
  have hnfh : hasPrefix nf "diff --git" = false :=
    hasPrefix_excl nf "new file mode" "diff --git" hnf (by decide) (by decide)
  have e1 : parseDiffLine { diffs := [], curr := none, contentLines := [] } hline =
      { diffs := [], curr := some (headerInit hline), contentLines := [hline] } := by
    rw [parseDiffLine_header_none _ hline hh rfl]
    rfl
  unfold parseDiff
  rw [List.foldl_cons, e1]
  rw [show (pre ++ [nf] ++ post).foldl parseDiffLine
        { diffs := [], curr := some (headerInit hline), contentLines := [hline] } =
      post.foldl parseDiffLine (parseDiffLine (pre.foldl parseDiffLine
        { diffs := [], curr := some (headerInit hline), contentLines := [hline] }) nf) from by
    rw [List.foldl_append, List.foldl_append, List.foldl_cons, List.foldl_nil]]
  obtain ⟨d1, hd1, hdiffs1⟩ := foldl_no_header pre
    { diffs := [], curr := some (headerInit hline), contentLines := [hline] }
    (headerInit hline) rfl hpre
  set stp := pre.foldl parseDiffLine
    { diffs := [], curr := some (headerInit hline), contentLines := [hline] } with hstp
  rw [parseDiffLine_not_header stp nf hnfh]
  have hA : (lineUpdate nf d1).Status = "A" := by simp [lineUpdate, hnf]
  obtain ⟨d2, hd2, hA2, hdiffs2⟩ := foldl_keeps_A post
    { diffs := stp.diffs, curr := stp.curr.map (lineUpdate nf),
      contentLines := stp.contentLines ++ [nf] }
    (lineUpdate nf d1) (by simp [hd1]) hA hpost
  refine ⟨{ d2 with Content := joinLines ((post.foldl parseDiffLine
    { diffs := stp.diffs, curr := stp.curr.map (lineUpdate nf),
      contentLines := stp.contentLines ++ [nf] }).contentLines) }, ?_, hA2⟩
  unfold finalizeDiff
  rw [hd2, hdiffs2]
  simp [hdiffs1]

/-- C6: a diff section — a header line followed by lines with no further
section marker, and (as in any well-formed single section) no new-file
or rename marker — that contains a "deleted file mode" line parses to
change kind Deleted with `FilePath` equal to `OldPath`. -/
theorem parseDiff_deleted_filePath (hline del : String) (pre post : List String)
    (hh : hasPrefix hline "diff --git" = true)
    (hpre : ∀ l ∈ pre, hasPrefix l "diff --git" = false)
    (hdel : hasPrefix del "deleted file mode" = true)
    (hpost : ∀ l ∈ post, hasPrefix l "diff --git" = false ∧
      hasPrefix l "new file mode" = false ∧ hasPrefix l "rename from" = false) :
    ∃ d, parseDiff (hline :: (pre ++ [del] ++ post)) = [d] ∧
      d.Status = "D" ∧ d.FilePath = d.OldPath := by
  have hdelh : hasPrefix del "diff --git" = false :=
    hasPrefix_excl del "deleted file mode" "diff --git" hdel (by decide) (by decide)
  have hdeln : hasPrefix del "new file mode" = false :=
    hasPrefix_excl del "deleted file mode" "new file mode" hdel (by decide) (by decide)
  have e1 : parseDiffLine { diffs := [], curr := none, contentLines := [] } hline =
      { diffs := [], curr := some (headerInit hline), contentLines := [hline] } := by
    rw [parseDiffLine_header_none _ hline hh rfl]
    rfl
  unfold parseDiff
  rw [List.foldl_cons, e1]
  rw [show (pre ++ [del] ++ post).foldl parseDiffLine
        { diffs := [], curr := some (headerInit hline), contentLines := [hline] } =
      post.foldl parseDiffLine (parseDiffLine (pre.foldl parseDiffLine
        { diffs := [], curr := some (headerInit hline), contentLines := [hline] }) del) from by
    rw [List.foldl_append, List.foldl_append, List.foldl_cons, List.foldl_nil]]
  obtain ⟨d1, hd1, hdiffs1⟩ := foldl_no_header pre
    { diffs := [], curr := some (headerInit hline), contentLines := [hline] }
    (headerInit hline) rfl hpre
  set stp := pre.foldl parseDiffLine
    { diffs := [], curr := some (headerInit hline), contentLines := [hline] } with hstp
  rw [parseDiffLine_not_header stp del hdelh]
  have hstep : lineUpdate del d1 = { d1 with Status := "D", FilePath := d1.OldPath } := by
    simp [lineUpdate, hdeln, hdel]
  have hD : (lineUpdate del d1).Status = "D" := by rw [hstep]
  have hFP : (lineUpdate del d1).FilePath = (lineUpdate del d1).OldPath := by rw [hstep]
  obtain ⟨d2, hd2, hD2, hFP2, hdiffs2⟩ := foldl_keeps_D post
    { diffs := stp.diffs, curr := stp.curr.map (lineUpdate del),
      contentLines := stp.contentLines ++ [del] }
    (lineUpdate del d1) (by simp [hd1]) hD hFP hpost
  refine ⟨{ d2 with Content := joinLines ((post.foldl parseDiffLine
    { diffs := stp.diffs, curr := stp.curr.map (lineUpdate del),
      contentLines := stp.contentLines ++ [del] }).contentLines) }, ?_, hD2, hFP2⟩
  unfold finalizeDiff
  rw [hd2, hdiffs2]
  simp [hdiffs1]

/-- Line-feed-terminated concatenation is a `joinLines` with a final
empty line. -/
theorem catLines_eq_joinLines (ls : List String) :
    catLines ls = joinLines (ls ++ [""]) := by
  induction ls with
  | nil => rfl
  | cons l ls ih =>
      rw [List.cons_append, joinLines_cons l (ls ++ [""]) (by simp), ← ih]
      rfl

/-- C3: for every untracked file classified as text and at most 1 MiB,
the synthesized record has change kind Added, is not binary, and its
content consists of the five header lines, a hunk header declaring zero
old lines and N new lines where N is the number of lines obtained by
splitting the content on line feed, and exactly N `+`-prefixed lines;
in particular a 3-line text file yields a hunk header declaring exactly
3 new lines and three `+`-prefixed lines. -/
theorem generateUntracked_text_synthesis (p c : String) (size : Nat)
    (hsize : size ≤ 1024 * 1024)
    (htext : isBinaryContent (strBytes c) = false) :
    (∃ d, generateUntrackedFileDiff p (.file size (some c)) = .ok (some d) ∧
      d.Status = "A" ∧ d.IsBinary = false ∧
      d.Content = joinLines
        (["diff --git a/" ++ p ++ " b/" ++ p,
          "new file mode 100644",
          "index 0000000..0000000",
          "--- /dev/null",
          "+++ b/" ++ p,
          "@@ -0,0 +1," ++ toString (splitOnLF c).length ++ " @@"] ++
          (splitOnLF c).map (fun l => "+" ++ l) ++ [""]) ∧
      ((splitOnLF c).map (fun l => "+" ++ l)).length = (splitOnLF c).length ∧
      (∀ l ∈ (splitOnLF c).map (fun l => "+" ++ l), hasPrefix l "+" = true)) ∧
    generateUntrackedFileDiff "file.txt" (.file 20 (some "line 1\nline 2\nline 3")) =
      .ok (some { FilePath := "file.txt", OldPath := "", Status := "A", IsBinary := false,
                  Content := "diff --git a/file.txt b/file.txt\nnew file mode 100644\nindex 0000000..0000000\n--- /dev/null\n+++ b/file.txt\n@@ -0,0 +1,3 @@\n+line 1\n+line 2\n+line 3\n" }) := by
  constructor
  · have h1 : ¬ (1024 * 1024 < size) := not_lt.mpr hsize
    refine ⟨{ FilePath := p, OldPath := "", Status := "A", IsBinary := false,
              Content := untrackedTextDiffContent p c }, ?_, rfl, rfl, ?_, ?_, ?_⟩
    · simp [generateUntrackedFileDiff, h1, htext]
    · show untrackedTextDiffContent p c = _
      unfold untrackedTextDiffContent untrackedDiffLines
      rw [catLines_eq_joinLines]
    · exact List.length_map _ _
    · intro l hl
      obtain ⟨m, _, rfl⟩ := List.mem_map.mp hl
      simp [hasPrefix, String.data_append, List.isPrefixOf]
  · rfl

/-- C7: an untracked file over 1 MiB — whatever reading it would return,
including a failure, since its content is not read — or one whose content
the detector classifies as binary yields a placeholder record with
`IsBinary = true`, change kind Added, zero additions and deletions, and
a human-readable placeholder string as content, never the raw bytes. -/
theorem generateUntracked_binary_placeholder (p c : String) (size smallSize : Nat)
    (hsize : 1024 * 1024 < size) (hsmall : smallSize ≤ 1024 * 1024)
    (hbin : isBinaryContent (strBytes c) = true) :
    (∀ readResult : Option String, ∃ d,
      generateUntrackedFileDiff p (.file size readResult) = .ok (some d) ∧
      d.IsBinary = true ∧ d.Status = "A" ∧ d.Additions = 0 ∧ d.Deletions = 0 ∧
      d.Content = "Binary file " ++ p ++ " (size: " ++ toString size ++ " bytes)") ∧
    (∃ d, generateUntrackedFileDiff p (.file smallSize (some c)) = .ok (some d) ∧
      d.IsBinary = true ∧ d.Status = "A" ∧ d.Additions = 0 ∧ d.Deletions = 0 ∧
      d.Content = "Binary file " ++ p) := by
  constructor
  · intro readResult
    refine ⟨{ FilePath := p, OldPath := "", Status := "A", IsBinary := true,
              Content := "Binary file " ++ p ++ " (size: " ++ toString size ++ " bytes)" },
      ?_, rfl, rfl, rfl, rfl, rfl⟩
    simp [generateUntrackedFileDiff, hsize]
  · refine ⟨{ FilePath := p, OldPath := "", Status := "A", IsBinary := true,
                Content := "Binary file " ++ p }, ?_, rfl, rfl, rfl, rfl, rfl⟩
    have h1 : ¬ (1024 * 1024 < smallSize) := not_lt.mpr hsmall
    simp [generateUntrackedFileDiff, h1, hbin]

/-- Every record the synthesizer returns carries the path it was asked
about. -/
theorem generateUntracked_filePath (p : String) (e : FSEntry) (d : DiffInfo)
    (h : generateUntrackedFileDiff p e = .ok (some d)) : d.FilePath = p := by
  cases e with
  | statError => simp [generateUntrackedFileDiff] at h
  | dir => simp [generateUntrackedFileDiff] at h
  | file size r =>
      unfold generateUntrackedFileDiff at h
      by_cases h1 : 1024 * 1024 < size
      · simp [h1] at h
        subst h
        rfl
      · simp [h1] at h
        cases r with
        | none => simp at h
        | some c =>
            simp at h
            by_cases h2 : isBinaryContent (strBytes c)
            · simp [h2] at h; subst h; rfl
            · simp [h2] at h; subst h; rfl

/-- Membership in the synthesis fold comes from the accumulator or from
one of the target paths. -/
theorem mem_untracked_foldl (fs : String → FSEntry) (targets : List String) :
    ∀ (acc : List DiffInfo) (d : DiffInfo),
      d ∈ targets.foldl (fun acc p =>
        match generateUntrackedFileDiff p (fs p) with
        | .ok (some d) => acc ++ [d]
        | _ => acc) acc →
      d ∈ acc ∨ ∃ p ∈ targets, generateUntrackedFileDiff p (fs p) = .ok (some d) := by
  induction targets with
  | nil => intro acc d h; exact Or.inl h
  | cons t ts ih =>
      intro acc d h
      rw [List.foldl_cons] at h
      rcases ih _ d h with h2 | ⟨p, hp, hgen⟩
      · cases hg : generateUntrackedFileDiff t (fs t) with
        | error e => simp [hg] at h2; exact Or.inl h2
        | ok o =>
            cases o with
            | none => simp [hg] at h2; exact Or.inl h2
            | some d0 =>
                simp only [hg] at h2
                rcases List.mem_append.mp h2 with h3 | h3
                · exact Or.inl h3
                · simp at h3; subst h3; exact Or.inr ⟨t, by simp, hg⟩
      · exact Or.inr ⟨p, by simp [hp], hgen⟩

/-- C8: with an explicit non-empty path list, every returned record's
path is both in that list and reported untracked (code `"??"`) by the
status query; requested paths that are not untracked contribute no
record (and the operation, which is total here, raises no error). -/
theorem getUntrackedFileDiff_scoped (statusLines : List String) (fs : String → FSEntry)
    (filePaths : List String) (hne : filePaths ≠ []) :
    (∀ d ∈ GetUntrackedFileDiff statusLines fs filePaths,
      d.FilePath ∈ filePaths ∧
      ∃ f ∈ GetStatus statusLines, f.Status = "??" ∧ f.Path = d.FilePath) ∧
    (∀ p ∈ filePaths, (¬ ∃ f ∈ GetStatus statusLines, f.Status = "??" ∧ f.Path = p) →
      ∀ d ∈ GetUntrackedFileDiff statusLines fs filePaths, d.FilePath ≠ p) := by
  have h0 : 0 < filePaths.length := List.length_pos.mpr hne
  have main : ∀ d ∈ GetUntrackedFileDiff statusLines fs filePaths,
      d.FilePath ∈ filePaths ∧
      ∃ f ∈ GetStatus statusLines, f.Status = "??" ∧ f.Path = d.FilePath := by
    intro d hd
    simp only [GetUntrackedFileDiff] at hd
    rw [if_pos h0] at hd
    rcases mem_untracked_foldl fs _ [] d hd with h | ⟨p, hp, hgen⟩
    · simp at h
    · rw [List.mem_filter] at hp
      obtain ⟨hp1, hp2⟩ := hp
      have hfp : d.FilePath = p := generateUntracked_filePath p (fs p) d hgen
      rw [hfp]
      refine ⟨hp1, ?_⟩
      have hp3 : p ∈ ((GetStatus statusLines).filter
          (fun f => f.Status == "??")).map FileStatus.Path := by
        simpa using hp2
      obtain ⟨f, hf, hfpath⟩ := List.mem_map.mp hp3
      rw [List.mem_filter] at hf
      exact ⟨f, hf.1, by simpa using hf.2, hfpath⟩
  refine ⟨main, ?_⟩
  intro p hp hnex d hd heq
  obtain ⟨h1, f, hf, hstat, hpath⟩ := main d hd
  exact hnex ⟨f, hf, hstat, hpath.trans heq⟩

/-- C9: each mutation operation fails fast with a local descriptive
error — an `.error` result, carrying no external command — when its
trivial precondition is violated: staging or unstaging an empty path
list, committing or amending with an empty message, and amending a
repository with zero commits, the last with the distinct "no commits
found" error and no amend command issued. -/
theorem mutation_preconditions (msg : String) (hmsg : msg ≠ "") :
    StageFiles [] = .error "no files specified to stage" ∧
    UnstageFiles [] = .error "no files specified to unstage" ∧
    Commit "" = .error "commit message cannot be empty" ∧
    (∀ hasCommits : Bool,
      AmendCommit "" hasCommits = .error "commit message cannot be empty") ∧
    AmendCommit msg false = .error "no commits found to amend" := by
  refine ⟨rfl, rfl, rfl, fun hasCommits => rfl, ?_⟩
  simp [AmendCommit, hmsg]

/-- C10: the history parser slices the first `|`-separated field to its
first 8 characters with no length check: a non-empty line with at least
4 fields whose first field has at least 8 characters parses (the slice
is in bounds), while the concrete line `"abc|a|d|s"`, whose first field
has only 3 characters, makes the slice index out of bounds (modelled as
the `.error` result). -/
theorem getCommitHistory_shortHash_slice (line : String) (hne : line ≠ "")
    (hk : ¬ ((splitNBar 5 line.data).map String.mk).length < 4)
    (h8 : 8 ≤ (((splitNBar 5 line.data).map String.mk).getD 0 "").length) :
    (∃ c, parseHistoryLine line = .ok (some c) ∧
      c.ShortHash = String.mk ((((splitNBar 5 line.data).map String.mk).getD 0 "").data.take 8)) ∧
    GetCommitHistory ["abc|a|d|s"] = .error () := by
  constructor
  · have hslice : goSliceTo (((splitNBar 5 line.data).map String.mk).getD 0 "") 8 =
        some (String.mk ((((splitNBar 5 line.data).map String.mk).getD 0 "").data.take 8)) := by
      unfold goSliceTo
      rw [if_pos h8]
    simp only [parseHistoryLine]
    rw [if_neg hne, if_neg hk]
    rw [hslice]
    exact ⟨_, rfl, rfl⟩
  · decide

/-- C1 witness: the derivation evaluated on the line `"?? a.txt"`. -/
theorem getStatus_flag_derivation_witness :
    ∃ fs : FileStatus,
      parseStatusLine (String.mk ('?' :: '?' :: ' ' :: "a.txt".data)) = some fs ∧
      GetStatus [String.mk ('?' :: '?' :: ' ' :: "a.txt".data)] = [fs] ∧
      (fs.Staged = true ↔ ('?' ≠ ' ' ∧ '?' ≠ '?')) ∧
      (fs.Modified = true ↔ ('?' ≠ ' ' ∧ String.mk ['?', '?'] ≠ "??")) ∧
      (String.mk ['?', '?'] = "??" → fs.Staged = false ∧ fs.Modified = false) :=
  getStatus_flag_derivation '?' '?' ' ' "a.txt".data

/-- C2 witness: the round trip evaluated on a two-line diff. -/
theorem parseDiff_roundtrip_witness :
    ((["diff --git a/f b/f", "+a"] : List String) = [] ∨
      ∃ l ∈ (["diff --git a/f b/f", "+a"] : List String),
        hasPrefix l "diff --git" = true) ∧
    joinLines ((parseDiff ["diff --git a/f b/f", "+a"]).map DiffInfo.Content) =
      joinLines ["diff --git a/f b/f", "+a"] :=
  ⟨by decide, parseDiff_roundtrip ["diff --git a/f b/f", "+a"] (by decide)⟩

/-- C5 witness: a new-file section followed by two hunk headers. -/
theorem parseDiff_new_file_added_witness :
    (hasPrefix "diff --git a/f.txt b/f.txt" "diff --git" = true ∧
      hasPrefix "new file mode 100644" "new file mode" = true ∧
      (∀ l ∈ (["@@ -0,0 +1,1 @@", "+a", "@@ -1,1 +2,2 @@"] : List String),
        hasPrefix l "diff --git" = false ∧
        hasPrefix l "deleted file mode" = false ∧ hasPrefix l "rename from" = false)) ∧
    ∃ d, parseDiff ("diff --git a/f.txt b/f.txt" ::
        ([] ++ ["new file mode 100644"] ++ ["@@ -0,0 +1,1 @@", "+a", "@@ -1,1 +2,2 @@"])) =
      [d] ∧ d.Status = "A" :=
  ⟨⟨by decide, by decide, by decide⟩,
    (parseDiff_new_file_added "diff --git a/f.txt b/f.txt" "new file mode 100644" []
      ["@@ -0,0 +1,1 @@", "+a", "@@ -1,1 +2,2 @@"]
      (by decide) (by decide) (by decide) (by decide)).2⟩

/-- C6 witness: a deleted-file section followed by a hunk. -/
theorem parseDiff_deleted_filePath_witness :
    (hasPrefix "diff --git a/f.txt b/f.txt" "diff --git" = true ∧
      hasPrefix "deleted file mode 100644" "deleted file mode" = true ∧
      (∀ l ∈ (["@@ -1,1 +0,0 @@", "-a"] : List String),
        hasPrefix l "diff --git" = false ∧
        hasPrefix l "new file mode" = false ∧ hasPrefix l "rename from" = false)) ∧
    ∃ d, parseDiff ("diff --git a/f.txt b/f.txt" ::
        ([] ++ ["deleted file mode 100644"] ++ ["@@ -1,1 +0,0 @@", "-a"])) = [d] ∧
      d.Status = "D" ∧ d.FilePath = d.OldPath :=
  ⟨⟨by decide, by decide, by decide⟩,
    parseDiff_deleted_filePath "diff --git a/f.txt b/f.txt" "deleted file mode 100644" []
      ["@@ -1,1 +0,0 @@", "-a"] (by decide) (by decide) (by decide) (by decide)⟩

/-- C3 witness: the text synthesis evaluated on a 3-line file. -/
theorem generateUntracked_text_synthesis_witness :
    ((20 ≤ 1024 * 1024) ∧
      isBinaryContent (strBytes "line 1\nline 2\nline 3") = false) ∧
    ∃ d, generateUntrackedFileDiff "file.txt"
        (.file 20 (some "line 1\nline 2\nline 3")) = .ok (some d) ∧
      d.Status = "A" ∧ d.IsBinary = false ∧
      d.Content = joinLines
        (["diff --git a/file.txt b/file.txt",
          "new file mode 100644",
          "index 0000000..0000000",
          "--- /dev/null",
          "+++ b/file.txt",
          "@@ -0,0 +1," ++ toString (splitOnLF "line 1\nline 2\nline 3").length ++ " @@"] ++
          (splitOnLF "line 1\nline 2\nline 3").map (fun l => "+" ++ l) ++ [""]) ∧
      ((splitOnLF "line 1\nline 2\nline 3").map (fun l => "+" ++ l)).length =
        (splitOnLF "line 1\nline 2\nline 3").length ∧
      (∀ l ∈ (splitOnLF "line 1\nline 2\nline 3").map (fun l => "+" ++ l),
        hasPrefix l "+" = true) :=
  ⟨⟨by decide, by decide⟩,
    (generateUntracked_text_synthesis "file.txt" "line 1\nline 2\nline 3" 20
      (by decide) (by decide)).1⟩

/-- C7 witness: an oversize file with an unreadable content, and a small
file containing a NUL byte. -/
theorem generateUntracked_binary_placeholder_witness :
    ((1024 * 1024 < 1048577) ∧ (3 ≤ 1024 * 1024) ∧
      isBinaryContent (strBytes "a\x00b") = true) ∧
    ((∀ readResult : Option String, ∃ d,
      generateUntrackedFileDiff "big.bin" (.file 1048577 readResult) = .ok (some d) ∧
      d.IsBinary = true ∧ d.Status = "A" ∧ d.Additions = 0 ∧ d.Deletions = 0 ∧
      d.Content = "Binary file " ++ "big.bin" ++ " (size: " ++ toString 1048577 ++
        " bytes)") ∧
    (∃ d, generateUntrackedFileDiff "big.bin" (.file 3 (some "a\x00b")) = .ok (some d) ∧
      d.IsBinary = true ∧ d.Status = "A" ∧ d.Additions = 0 ∧ d.Deletions = 0 ∧
      d.Content = "Binary file " ++ "big.bin")) :=
  ⟨⟨by decide, by decide, by decide⟩,
    generateUntracked_binary_placeholder "big.bin" "a\x00b" 1048577 3
      (by decide) (by decide) (by decide)⟩

/-- C8 witness: two untracked files, one modified file, and a request
for one untracked and one non-untracked path. -/
theorem getUntrackedFileDiff_scoped_witness :
    ((["a.txt", "c.txt"] : List String) ≠ []) ∧
    ((∀ d ∈ GetUntrackedFileDiff ["?? a.txt", "?? b.txt", " M c.txt"]
        (fun _ => .file 1 (some "x")) ["a.txt", "c.txt"],
      d.FilePath ∈ (["a.txt", "c.txt"] : List String) ∧
      ∃ f ∈ GetStatus ["?? a.txt", "?? b.txt", " M c.txt"],
        f.Status = "??" ∧ f.Path = d.FilePath) ∧
    (∀ p ∈ (["a.txt", "c.txt"] : List String),
      (¬ ∃ f ∈ GetStatus ["?? a.txt", "?? b.txt", " M c.txt"],
        f.Status = "??" ∧ f.Path = p) →
      ∀ d ∈ GetUntrackedFileDiff ["?? a.txt", "?? b.txt", " M c.txt"]
        (fun _ => .file 1 (some "x")) ["a.txt", "c.txt"], d.FilePath ≠ p)) :=
  ⟨by decide,
    getUntrackedFileDiff_scoped ["?? a.txt", "?? b.txt", " M c.txt"]
      (fun _ => .file 1 (some "x")) ["a.txt", "c.txt"] (by decide)⟩

/-- C9 witness: the precondition failures evaluated with the non-empty
message `"m"`. -/
theorem mutation_preconditions_witness :
    (("m" : String) ≠ "") ∧
    (StageFiles [] = .error "no files specified to stage" ∧
    UnstageFiles [] = .error "no files specified to unstage" ∧
    Commit "" = .error "commit message cannot be empty" ∧
    (∀ hasCommits : Bool,
      AmendCommit "" hasCommits = .error "commit message cannot be empty") ∧
    AmendCommit "m" false = .error "no commits found to amend") :=
  ⟨by decide, mutation_preconditions "m" (by decide)⟩

/-- C10 witness: a log line whose hash field has 10 characters. -/
theorem getCommitHistory_shortHash_slice_witness :
    (("0123456789|me|2024|subj" : String) ≠ "" ∧
      ¬ ((splitNBar 5 "0123456789|me|2024|subj".data).map String.mk).length < 4 ∧
      8 ≤ (((splitNBar 5 "0123456789|me|2024|subj".data).map String.mk).getD 0 "").length) ∧
    ((∃ c, parseHistoryLine "0123456789|me|2024|subj" = .ok (some c) ∧
      c.ShortHash = String.mk
        ((((splitNBar 5 "0123456789|me|2024|subj".data).map String.mk).getD 0 "").data.take 8)) ∧
    GetCommitHistory ["abc|a|d|s"] = .error ()) :=
  ⟨⟨by decide, by decide, by decide⟩,
    getCommitHistory_shortHash_slice "0123456789|me|2024|subj"
      (by decide) (by decide) (by decide)⟩

end GitRovo
